import Mathlib

/-!
Verification of the NyxPatch mod-update checker against its design
specification.

The development shallowly embeds the core of the repository:
`data/utils/version.py` (version parsing, normalization and comparison),
`data/cache/manager.py` (the resolution cache) and `data/checker.py`
(the update orchestration).  Strings are modelled as `List Char`,
Python dictionaries as association lists with Python `dict`
assignment/lookup semantics, and the external collaborators (HTTP
providers, the filesystem scanner, `datetime` parsing) as explicit
function parameters.  Regular-expression searches from the source are
embedded as the deterministic character-scanning procedures the
concrete patterns denote (each pattern used by the source backtracks
trivially, so a greedy left-to-right scan is exact).
-/

/-! ### Character classes used by the version utilities -/

/-- ASCII decimal digit, the `[0-9]` / `\d` class of the source's regexes
(code points 48-57). -/
def isDigitC (c : Char) : Bool := 48 ≤ c.toNat && c.toNat ≤ 57

/-- ASCII letter, the `[a-zA-Z]` class (code points 97-122 and 65-90). -/
def isAsciiLetterC (c : Char) : Bool :=
  (97 ≤ c.toNat && c.toNat ≤ 122) || (65 ≤ c.toNat && c.toNat ≤ 90)

/-- Digit or dot, the `[0-9.]` class. -/
def isDotDigitC (c : Char) : Bool := isDigitC c || c = '.'

/-- The `[a-zA-Z0-9.-]` class used by the prerelease and build patterns. -/
def isPreCharC (c : Char) : Bool := isAsciiLetterC c || isDigitC c || c = '.' || c = '-'

/-- The `[._-]` separator class of the secondary prerelease pattern. -/
def isSepC (c : Char) : Bool := c = '.' || c = '_' || c = '-'

/-- Whitespace stripped by Python `str.strip()` (ASCII subset). -/
def isPySpace (c : Char) : Bool :=
  c = ' ' || c = '\t' || c = '\n' || c = '\x0d' || c = '\x0b' || c = '\x0c'

/-- ASCII lower-casing of a single character, as used by `str.lower()`
and by `re.IGNORECASE` keyword matching. -/
def lowerC (c : Char) : Char :=
  if 'A' ≤ c && c ≤ 'Z' then Char.ofNat (c.toNat + 32) else c

/-! ### Python `str.strip()` -/

/-- Python `str.strip()`: drop whitespace from both ends. -/
def pyStrip (l : List Char) : List Char :=
  (l.dropWhile isPySpace).rdropWhile isPySpace

/-! ### Embedded regex matchers

Each `...MatchAt` function attempts the corresponding pattern anchored at
the head of its argument and `searchO` scans start positions left to
right, exactly as `re.search` does.  For every pattern appearing in
`version.py`, greedy quantifier runs are forced (shrinking a maximal run
places a class character where a distinct literal is required), so the
deterministic procedures below compute precisely the Python match. -/

/-- Scan of `re.search`: try the anchored matcher at each start position,
left to right.  (The embedded patterns cannot match the empty string, so
the final, empty start position is irrelevant.) -/
def searchO (m : List Char → Option (List Char)) : List Char → Option (List Char)
  | [] => none
  | c :: cs =>
    match m (c :: cs) with
    | some g => some g
    | none => searchO m cs

/-- Capture group `([0-9.]+)` — trailing group of the `MC...` pattern. -/
def group2 (r : List Char) : Option (List Char) :=
  if (r.takeWhile isDotDigitC).isEmpty then none else some (r.takeWhile isDotDigitC)

/-- Tail `(\.\d+)?-([0-9.]+)` of the `MC` pattern, after `MC\d+\.\d+`. -/
def mcTail2 (r3 : List Char) : Option (List Char) :=
  match r3 with
  | [] => none
  | c :: r =>
    if c = '-' then group2 r
    else if c = '.' then
      if (r.takeWhile isDigitC).isEmpty then none
      else
        match r.dropWhile isDigitC with
        | [] => none
        | c2 :: r6 => if c2 = '-' then group2 r6 else none
    else none

/-- Part of the `MC` pattern after the literal `MC`: `\d+\.\d+(\.\d+)?-([0-9.]+)`. -/
def mcAfterMC (rest : List Char) : Option (List Char) :=
  if (rest.takeWhile isDigitC).isEmpty then none
  else
    match rest.dropWhile isDigitC with
    | [] => none
    | c :: r2 =>
      if c = '.' then
        if (r2.takeWhile isDigitC).isEmpty then none
        else mcTail2 (r2.dropWhile isDigitC)
      else none

/-- Anchored match of `MC\d+\.\d+(\.\d+)?-([0-9.]+)`, returning group 2. -/
def mcMatchAt (l : List Char) : Option (List Char) :=
  match l with
  | c1 :: c2 :: rest => if c1 = 'M' && c2 = 'C' then mcAfterMC rest else none
  | _ => none

/-- Anchored match of `[a-zA-Z]+-(\d+\.\d+(\.\d+)?)`, returning group 1. -/
def dashMatchAt (l : List Char) : Option (List Char) :=
  if (l.takeWhile isAsciiLetterC).isEmpty then none
  else
    match l.dropWhile isAsciiLetterC with
    | [] => none
    | c :: r2 =>
      if c = '-' then
        if (r2.takeWhile isDigitC).isEmpty then none
        else
          match r2.dropWhile isDigitC with
          | [] => none
          | c2 :: r4 =>
            if c2 = '.' then
              if (r4.takeWhile isDigitC).isEmpty then none
              else
                match r4.dropWhile isDigitC with
                | [] => some (r2.takeWhile isDigitC ++ '.' :: r4.takeWhile isDigitC)
                | c3 :: r6 =>
                  if c3 = '.' then
                    if (r6.takeWhile isDigitC).isEmpty then
                      some (r2.takeWhile isDigitC ++ '.' :: r4.takeWhile isDigitC)
                    else
                      some (r2.takeWhile isDigitC ++ '.' :: r4.takeWhile isDigitC
                        ++ '.' :: r6.takeWhile isDigitC)
                  else some (r2.takeWhile isDigitC ++ '.' :: r4.takeWhile isDigitC)
            else none
      else none

/-! ### `normalize_version` -/

/-- Test `version.lower().startswith('v')` of `normalize_version`. -/
def lowerStartsWithV (l : List Char) : Bool :=
  match l with
  | c :: _ => c = 'v' || c = 'V'
  | [] => false

/-- Embedding of `normalize_version` (`data/utils/version.py`): strip one
leading `v`/`V`, rewrite to the embedded numeric group of the `MC...`
pattern if it occurs, then of the `mod-1.2.3` pattern if it occurs, then
strip surrounding whitespace. -/
def normalize_version (s : List Char) : List Char :=
  let v1 := if lowerStartsWithV s then s.tail else s
  let v2 :=
    match searchO mcMatchAt v1 with
    | some g => g
    | none => v1
  let v3 :=
    match searchO dashMatchAt v2 with
    | some g => g
    | none => v2
  pyStrip v3

/-! ### `parse_version` -/

/-- Accumulating splitter for `re.split(r'[^0-9]+', s)` with empty tokens
discarded: returns the maximal runs of digits, in order. -/
def runsAux : List Char → List Char → List (List Char)
  | [], cur => if cur.isEmpty then [] else [cur.reverse]
  | c :: cs, cur =>
    if isDigitC c then runsAux cs (c :: cur)
    else if cur.isEmpty then runsAux cs [] else cur.reverse :: runsAux cs []

/-- Maximal digit runs of a character list. -/
def digitRuns (l : List Char) : List (List Char) := runsAux l []

/-- Value of a digit string, as Python `int`. -/
def charsToNat (l : List Char) : Nat :=
  l.foldl (fun n c => n * 10 + (c.toNat - 48)) 0

/-- Embedding of `parse_version`: take the segment before the first `-` or
`+`, split it into digit runs, parse each run; default to `[0]` when no
run exists.  (The `int()` call never fails on an all-digit token, so the
`except ValueError: continue` of the source is unreachable.) -/
def parse_version (l : List Char) : List Nat :=
  let numeric := l.takeWhile (fun c => !(c = '-') && !(c = '+'))
  let comps := (digitRuns numeric).map charsToNat
  if comps.isEmpty then [0] else comps

/-! ### `extract_prerelease_and_build` -/

/-- Anchored match of the semver prerelease pattern
`-([a-zA-Z0-9.-]+)(?:\+|$)`, returning group 1. -/
def preMatchAt (l : List Char) : Option (List Char) :=
  match l with
  | [] => none
  | c :: r =>
    if c = '-' then
      let g := r.takeWhile isPreCharC
      if g.isEmpty then none
      else
        match r.dropWhile isPreCharC with
        | [] => some g
        | c2 :: _ => if c2 = '+' then some g else none
    else none

/-- Anchored match of the build pattern `\+([a-zA-Z0-9.-]+)$`, returning
group 1. -/
def buildMatchAt (l : List Char) : Option (List Char) :=
  match l with
  | [] => none
  | c :: r =>
    if c = '+' then
      let g := r.takeWhile isPreCharC
      if g.isEmpty then none
      else if (r.dropWhile isPreCharC).isEmpty then some g else none
    else none

/-- Case-insensitive literal keyword match; returns the rest of the input
on success.  The keyword is given lower-cased. -/
def matchKeywordCI : List Char → List Char → Option (List Char)
  | [], r => some r
  | _ :: _, [] => none
  | k :: ks, c :: cs => if lowerC c = k then matchKeywordCI ks cs else none

/-- The alternation `(alpha|beta|pre|rc|snapshot)` with `re.IGNORECASE`,
attempted in source order; returns the lower-cased keyword and the rest.
The five alternatives begin with distinct letters, so at most one can
match at a position. -/
def altKeyword (r : List Char) : Option (List Char × List Char) :=
  match matchKeywordCI "alpha".toList r with
  | some rest => some ("alpha".toList, rest)
  | none =>
    match matchKeywordCI "beta".toList r with
    | some rest => some ("beta".toList, rest)
    | none =>
      match matchKeywordCI "pre".toList r with
      | some rest => some ("pre".toList, rest)
      | none =>
        match matchKeywordCI "rc".toList r with
        | some rest => some ("rc".toList, rest)
        | none =>
          match matchKeywordCI "snapshot".toList r with
          | some rest => some ("snapshot".toList, rest)
          | none => none

/-- Anchored match of the secondary prerelease pattern
`[._-](alpha|beta|pre|rc|snapshot)[._-]?(\d*)` (`re.IGNORECASE`),
returning the synthesized prerelease `"<keyword>.<digits-or-0>"` that
`extract_prerelease_and_build` builds from groups 1 and 2. -/
def altMatchAt (l : List Char) : Option (List Char) :=
  match l with
  | [] => none
  | c :: r =>
    if isSepC c then
      match altKeyword r with
      | none => none
      | some (kw, r2) =>
        let r3 :=
          match r2 with
          | [] => ([] : List Char)
          | d :: ds => if isSepC d then ds else d :: ds
        let ds := r3.takeWhile isDigitC
        some (kw ++ '.' :: (if ds.isEmpty then ['0'] else ds))
    else none

/-- Embedding of `extract_prerelease_and_build`: semver prerelease first;
build metadata; the secondary keyword pattern only when the semver
prerelease was absent.  (Matched groups are never empty, so the `if not
prerelease` truthiness test of the source coincides with `isSome`.) -/
def extract_prerelease_and_build (l : List Char) :
    Option (List Char) × Option (List Char) :=
  let prerelease := searchO preMatchAt l
  let build := searchO buildMatchAt l
  let prerelease2 :=
    match prerelease with
    | some p => some p
    | none => searchO altMatchAt l
  (prerelease2, build)

/-! ### The `Version` class and comparisons -/

/-- Embedding of the `Version` class of `data/utils/version.py`. -/
structure Version where
  original : List Char
  normalized : List Char
  components : List Nat
  prerelease : Option (List Char)
  build : Option (List Char)
deriving DecidableEq, Repr

/-- The `Version.__init__` constructor. -/
def mkVersion (s : List Char) : Version :=
  let n := normalize_version s
  let pb := extract_prerelease_and_build n
  { original := s, normalized := n, components := parse_version n
    prerelease := pb.1, build := pb.2 }

/-- Python truthiness of an optional string (`None` and `""` are falsy). -/
def truthyChars (o : Option (List Char)) : Bool :=
  match o with
  | none => false
  | some l => !l.isEmpty

/-- Python list comparison `<` on integer lists (lexicographic; a strict
prefix is smaller). -/
def pyListLt : List Nat → List Nat → Bool
  | [], [] => false
  | [], _ :: _ => true
  | _ :: _, [] => false
  | a :: l1, b :: l2 =>
    if a < b then true else if b < a then false else pyListLt l1 l2

/-- Python string comparison `<` (lexicographic on code points). -/
def pyCharsLt : List Char → List Char → Bool
  | [], [] => false
  | [], _ :: _ => true
  | _ :: _, [] => false
  | a :: l1, b :: l2 =>
    if a.toNat < b.toNat then true
    else if b.toNat < a.toNat then false
    else pyCharsLt l1 l2

/-- Embedding of `Version.__lt__`: numeric components first; with equal
components a version with a prerelease tag is below one without; two
prerelease tags compare as plain strings; build metadata is ignored. -/
def versionLt (a b : Version) : Bool :=
  if a.components ≠ b.components then pyListLt a.components b.components
  else if truthyChars a.prerelease && !truthyChars b.prerelease then true
  else if !truthyChars a.prerelease && truthyChars b.prerelease then false
  else if truthyChars a.prerelease && truthyChars b.prerelease then
    pyCharsLt (a.prerelease.getD []) (b.prerelease.getD [])
  else false

/-- Embedding of `compare_versions`: build both `Version` values and test
`latest > current`.  The construction is total (no Python operation in it
can raise), so the `except` fallback to `_simple_version_compare` is
unreachable and does not appear here. -/
def compare_versions (current latest : List Char) : Bool :=
  versionLt (mkVersion current) (mkVersion latest)

/-! ### `_simple_version_compare` (the fallback comparison path) -/

/-- The index-ranging loop of `_simple_version_compare`: compare position
`i`, missing positions read as `0`; `n` counts the remaining positions of
`range(max(len, len))`. -/
def cmpPadGo (cur lat : List Nat) : Nat → Nat → Bool
  | 0, _ => false
  | n + 1, i =>
    if lat.getD i 0 > cur.getD i 0 then true
    else if lat.getD i 0 < cur.getD i 0 then false
    else cmpPadGo cur lat n (i + 1)

/-- Embedding of `_simple_version_compare`: equal normalized strings mean
no update; otherwise compare parsed components position by position with
zero padding.  (`parse_version` is total, so the inner `except` path —
plain string inequality — is unreachable.) -/
def simple_version_compare (current latest : List Char) : Bool :=
  let c := normalize_version current
  let l := normalize_version latest
  if c = l then false
  else
    let cp := parse_version c
    let lp := parse_version l
    cmpPadGo cp lp (max cp.length lp.length) 0

/-- Spec-side fallback comparator, written from the specification's words:
find the first position (missing positions read as `0`) where the two
sequences differ; `true` iff at that position latest exceeds current;
`false` when all positions tie. -/
def specFallbackCompare (cur lat : List Nat) : Bool :=
  match (List.range (max cur.length lat.length)).find?
      (fun i => decide (cur.getD i 0 ≠ lat.getD i 0)) with
  | none => false
  | some i => decide (cur.getD i 0 < lat.getD i 0)

/-! ### `is_valid_version` -/

/-- Embedding of `is_valid_version`: nonempty input whose normalization
has a parsed component and contains a digit. -/
def is_valid_version (v : List Char) : Bool :=
  if v.isEmpty then false
  else
    let n := normalize_version v
    decide (0 < (parse_version n).length) && n.any isDigitC

/-! ### Python dictionaries as association lists

`insertA` has `dict` assignment semantics (replace in place, else append)
and `lookupA` is `dict` lookup; dictionaries built through `insertA` have
unique keys, matching Python. -/

/-- Dictionary lookup. -/
def lookupA {α : Type} (k : String) : List (String × α) → Option α
  | [] => none
  | (k2, v) :: rest => if k = k2 then some v else lookupA k rest

/-- Dictionary assignment: replace the value in place, or append. -/
def insertA {α : Type} (k : String) (v : α) : List (String × α) → List (String × α)
  | [] => [(k, v)]
  | (k2, v2) :: rest =>
    if k = k2 then (k, v) :: rest else (k2, v2) :: insertA k v rest

/-- Python `dict.get(k)` on a dictionary whose stored values are already
optional: collapses a missing key and a `None` value, exactly as the
callers in `checker.py` use it (truthiness and defaults only). -/
def getDict (m : List (String × Option String)) (k : String) : Option String :=
  match lookupA k m with
  | some v => v
  | none => none

/-- Python truthiness of an optional `str` (`None` and `""` are falsy). -/
def truthyStr : Option String → Bool
  | none => false
  | some s => !s.isEmpty

/-! ### Data records of the checker -/

/-- A provider's version record, as the dictionary fields of it that the
core reads (`version_number`, `provider`, `date_published`). -/
structure VInfo where
  version_number : Option (List Char)
  provider : Option String
  date_published : Option (List Char)
deriving DecidableEq, Repr

/-- Package metadata, as the fields the orchestrator reads.  The
extraction in `data/utils/file.py` always populates every key (possibly
with `None`), so the `dict.get(key, default)` reads in `checker.py`
always see the stored value and their defaults are inert. -/
structure ModMeta where
  file_name : String
  mod_id : Option String
  mod_name : Option String
  version : Option (List Char)
deriving DecidableEq, Repr

/-! ### `ModCache` (`data/cache/manager.py`) -/

/-- The three cache tables the core mutates.  `project_ids` maps a mod id
to a per-provider dictionary holding only ids that were actually stored
(never `None`: `set_project_ids` guards on `is not None`). -/
structure ModCache where
  mod_files : List (String × ModMeta)
  project_ids : List (String × List (String × String))
  latest_versions : List (String × VInfo)
deriving DecidableEq, Repr

/-- The empty cache (a fresh `ModCache()`). -/
def emptyCache : ModCache := { mod_files := [], project_ids := [], latest_versions := [] }

/-- The zero-value map `{"modrinth": None, "curseforge": None}` that
`get_project_ids` returns for an unseen mod. -/
def defaultProjectIds : List (String × Option String) :=
  [("modrinth", none), ("curseforge", none)]

/-- Embedding of `ModCache.get_project_ids`: the stored per-provider
dictionary (its values wrapped in `some`), or the zero-value map. -/
def ModCache.get_project_ids (c : ModCache) (mod_id : String) :
    List (String × Option String) :=
  match lookupA mod_id c.project_ids with
  | some inner => inner.map (fun p => (p.1, some p.2))
  | none => defaultProjectIds

/-- Embedding of `ModCache.set_project_ids`: create the entry if missing,
then store each id only when it is non-absent. -/
def ModCache.set_project_ids (c : ModCache) (mod_id : String)
    (modrinth_id curseforge_id : Option String) : ModCache :=
  let inner0 := (lookupA mod_id c.project_ids).getD []
  let inner1 :=
    match modrinth_id with
    | some v => insertA "modrinth" v inner0
    | none => inner0
  let inner2 :=
    match curseforge_id with
    | some v => insertA "curseforge" v inner1
    | none => inner1
  { c with project_ids := insertA mod_id inner2 c.project_ids }

/-- Cache key `f"{provider}:{project_id}:{game_version}:{mod_loader}"`. -/
def versionKey (provider project_id game_version mod_loader : String) : String :=
  provider ++ ":" ++ project_id ++ ":" ++ game_version ++ ":" ++ mod_loader

/-- Embedding of `ModCache.get_version_info`. -/
def ModCache.get_version_info (c : ModCache)
    (provider project_id game_version mod_loader : String) : Option VInfo :=
  lookupA (versionKey provider project_id game_version mod_loader) c.latest_versions

/-- Embedding of `ModCache.set_version_info`. -/
def ModCache.set_version_info (c : ModCache)
    (provider project_id game_version mod_loader : String) (vi : VInfo) : ModCache :=
  { c with latest_versions :=
      insertA (versionKey provider project_id game_version mod_loader) vi c.latest_versions }

/-- Embedding of `ModCache.get_mod_file_info`. -/
def ModCache.get_mod_file_info (c : ModCache) (file_path : String) : Option ModMeta :=
  lookupA file_path c.mod_files

/-- Embedding of `ModCache.set_mod_file_info`. -/
def ModCache.set_mod_file_info (c : ModCache) (file_path : String) (m : ModMeta) : ModCache :=
  { c with mod_files := insertA file_path m c.mod_files }

/-- Embedding of `ModCache.clean_up`: drop metadata of files not seen in
this run; a falsy (empty) processed set disables the cleanup. -/
def ModCache.clean_up (c : ModCache) (processed : List String) : ModCache :=
  if processed.isEmpty then c
  else { c with mod_files := c.mod_files.filter (fun p => processed.contains p.1) }

/-! ### `prune_old_versions` and Python `datetime`

`datetime.fromisoformat` is external; it is modelled by a parsing
parameter returning the timestamp in seconds together with whether the
parsed value is offset-aware.  Python raises `TypeError` when an
offset-aware datetime is subtracted from the naive `datetime.now()`, and
`prune_old_versions` catches `(ValueError, TypeError)` and retains the
entry, so awareness decides retention. -/

/-- Result of `datetime.fromisoformat`: seconds since the epoch and
whether the value carries a UTC offset (is offset-aware). -/
structure PyDate where
  seconds : Int
  aware : Bool
deriving DecidableEq, Repr

/-- The `Z` rewriting of `prune_old_versions`: `...Z` becomes
`...+00:00` before parsing. -/
def fixZ (l : List Char) : List Char :=
  if l.getLast? = some 'Z' then l.dropLast ++ "+00:00".toList else l

/-- Whether one `latest_versions` entry survives `prune_old_versions`:
retained when the timestamp is absent or falsy, fails to parse
(`ValueError`), or parses offset-aware (the naive-minus-aware subtraction
raises `TypeError`, caught by the same handler); otherwise removed
exactly when older than the threshold. -/
def pruneKeep (parseIso : List Char → Option PyDate) (now maxAgeSeconds : Int)
    (vi : VInfo) : Bool :=
  match vi.date_published with
  | none => true
  | some ds =>
    if ds.isEmpty then true
    else
      match parseIso (fixZ ds) with
      | none => true
      | some d =>
        if d.aware then true
        else !(decide (now - d.seconds > maxAgeSeconds))

/-- Embedding of `ModCache.prune_old_versions`: filter the version table
by `pruneKeep`, returning the new cache and the number of removed
entries. -/
def ModCache.prune_old_versions (c : ModCache)
    (parseIso : List Char → Option PyDate) (now : Int) (max_age_days : Int) :
    ModCache × Nat :=
  if c.latest_versions.isEmpty then (c, 0)
  else
    let maxAgeSeconds := max_age_days * 24 * 3600
    let kept := c.latest_versions.filter (fun p => pruneKeep parseIso now maxAgeSeconds p.2)
    ({ c with latest_versions := kept }, c.latest_versions.length - kept.length)

/-! ### `ModUpdateChecker` (`data/checker.py`)

External collaborators (the two HTTP providers and the metadata
extractor) are fields of an environment record.  Calls to the live
provider endpoints are instrumented: each embedded operation also
returns the ordered list of live calls it made, so temporal claims
("without any live provider call") are statable. -/

/-- Configuration and collaborators of a `ModUpdateChecker`. -/
structure CheckerEnv where
  providers : List String
  resolveProjectId : String → String → Option String
  resolveLatest : String → String → String → String → Option VInfo
  primary : String
  fallback : String
  game_version : String
  mod_loader : String
  ignore_mods : List String
  extract_metadata : String → ModMeta

/-- Result of `_get_project_ids`: the merged id map, the updated cache,
and the providers whose `get_project_id` endpoint was called, in call
order. -/
structure ProjectIdsResult where
  result : List (String × Option String)
  cache : ModCache
  queried : List String
deriving Repr

/-- Embedding of `ModUpdateChecker._get_project_ids`.  The early return
fires when the cache is trusted and every cached value is truthy; a
provider is queried only when it is configured and its cached id is
falsy; the cache write passes `updated_ids.get(p, cached_ids.get(p))`
for the two known providers; the result merges non-`None` query results
over a copy of the cached map. -/
def ModUpdateChecker.get_project_ids (env : CheckerEnv) (cache : ModCache)
    (force_update : Bool) (mod_id : String) : ProjectIdsResult :=
  let cached := cache.get_project_ids mod_id
  if !force_update && cached.all (fun p => truthyStr p.2) then
    { result := cached, cache := cache, queried := [] }
  else
    let doPrimary := env.providers.contains env.primary && !truthyStr (getDict cached env.primary)
    let updated1 : List (String × Option String) :=
      if doPrimary then insertA env.primary (env.resolveProjectId env.primary mod_id) [] else []
    let doFallback := env.providers.contains env.fallback && !truthyStr (getDict cached env.fallback)
    let updated : List (String × Option String) :=
      if doFallback then insertA env.fallback (env.resolveProjectId env.fallback mod_id) updated1
      else updated1
    let cache2 :=
      if updated.isEmpty then cache
      else
        cache.set_project_ids mod_id
          (match lookupA "modrinth" updated with
           | some v => v
           | none => getDict cached "modrinth")
          (match lookupA "curseforge" updated with
           | some v => v
           | none => getDict cached "curseforge")
    let result := updated.foldl
      (fun acc p =>
        match p.2 with
        | some v => insertA p.1 (some v) acc
        | none => acc)
      cached
    let queried := (if doPrimary then [env.primary] else [])
      ++ (if doFallback then [env.fallback] else [])
    { result := result, cache := cache2, queried := queried }

/-- Result of `_get_latest_version`: the chosen record, the updated
cache, and the `(provider, project_id)` live calls in order. -/
structure LatestResult where
  result : Option VInfo
  cache : ModCache
  calls : List (String × String)
deriving Repr

/-- The cache-consultation loop of `_get_latest_version` over
`project_ids.items()` (keys are unique, Python `dict`): collect a cached
hit for every provider with a truthy project id, skipping the cache
entirely under force-refresh. -/
def gatherCached (env : CheckerEnv) (cache : ModCache) (force_update : Bool) :
    List (String × Option String) → List (String × VInfo)
  | [] => []
  | (prov, pidO) :: rest =>
    match pidO with
    | none => gatherCached env cache force_update rest
    | some pid =>
      if pid.isEmpty then gatherCached env cache force_update rest
      else if force_update then gatherCached env cache force_update rest
      else
        match cache.get_version_info prov pid env.game_version env.mod_loader with
        | some vi => (prov, vi) :: gatherCached env cache force_update rest
        | none => gatherCached env cache force_update rest

/-- One iteration of the live-query loop of `_get_latest_version` (the
`for provider_name in [primary, fallback]` body): query when the
provider is configured and has a truthy project id; cache a successful
result. -/
def liveStep (env : CheckerEnv) (project_ids : List (String × Option String))
    (acc : List (String × VInfo) × ModCache × List (String × String)) (name : String) :
    List (String × VInfo) × ModCache × List (String × String) :=
  if env.providers.contains name && truthyStr (getDict project_ids name) then
    let pid := (getDict project_ids name).getD ""
    let vi := env.resolveLatest name pid env.game_version env.mod_loader
    match vi with
    | some info =>
      (insertA name info acc.1,
        (acc.2.1.set_version_info name pid env.game_version env.mod_loader info,
          acc.2.2 ++ [(name, pid)]))
    | none => (acc.1, (acc.2.1, acc.2.2 ++ [(name, pid)]))
  else acc

/-- Embedding of `ModUpdateChecker._get_latest_version`: cached hits are
consulted first and, when any exist, the primary provider's hit is
preferred, then the fallback's; only if that yields nothing are the
providers queried live in primary-then-fallback order, every live result
cached, and the primary's result again preferred. -/
def ModUpdateChecker.get_latest_version (env : CheckerEnv) (cache : ModCache)
    (force_update : Bool) (project_ids : List (String × Option String)) : LatestResult :=
  let cachedVersions := gatherCached env cache force_update project_ids
  let viaCache : Option VInfo :=
    if cachedVersions.isEmpty then none
    else
      match lookupA env.primary cachedVersions with
      | some vi => some vi
      | none => lookupA env.fallback cachedVersions
  match viaCache with
  | some vi => { result := some vi, cache := cache, calls := [] }
  | none =>
    let r := [env.primary, env.fallback].foldl (liveStep env project_ids) ([], cache, [])
    let res :=
      match lookupA env.primary r.1 with
      | some vi => some vi
      | none => lookupA env.fallback r.1
    { result := res, cache := r.2.1, calls := r.2.2 }

/-- An `update_info` dictionary as built by `_check_for_update`
(`VERDICT_READY`).  The metadata dictionary always carries the
`mod_name` and `file_name` keys, so the `.get` defaults of the source
are inert and the stored values appear directly. -/
structure UpdateInfo where
  mod_id : Option String
  mod_name : Option String
  current_file : String
  current_version : List Char
  latest_version : List Char
  update_available : Bool
  provider : Option String
  version_info : VInfo
  metadata : ModMeta
deriving DecidableEq, Repr

/-- Embedding of `ModUpdateChecker._check_for_update`: abandon without a
verdict when the current version is falsy, when no version record
resolved, or when the record lacks a truthy version number; otherwise
run the comparator and package the verdict. -/
def ModUpdateChecker.check_for_update (env : CheckerEnv) (cache : ModCache)
    (force_update : Bool) (meta : ModMeta)
    (project_ids : List (String × Option String)) :
    Option UpdateInfo × ModCache × List (String × String) :=
  let abandon : Option (List Char) → Bool := fun o => !truthyChars o
  if abandon meta.version then (none, cache, [])
  else
    let cv := meta.version.getD []
    let lr := ModUpdateChecker.get_latest_version env cache force_update project_ids
    match lr.result with
    | none => (none, lr.cache, lr.calls)
    | some vi =>
      if abandon vi.version_number then (none, lr.cache, lr.calls)
      else
        let lv := vi.version_number.getD []
        let ua := compare_versions cv lv
        (some { mod_id := meta.mod_id, mod_name := meta.mod_name,
                current_file := meta.file_name, current_version := cv,
                latest_version := lv, update_available := ua,
                provider := vi.provider, version_info := vi, metadata := meta },
          lr.cache, lr.calls)

/-- The body of the `check_updates` per-file loop: metadata (cache-first
unless force-refresh), skip on falsy mod id or ignored mod, resolve
project ids, then check for an update. -/
def processFile (env : CheckerEnv) (force_update : Bool) (cache : ModCache)
    (file_path : String) : Option UpdateInfo × ModCache :=
  let metaCached := if force_update then none else cache.get_mod_file_info file_path
  let step :=
    match metaCached with
    | some m => (m, cache)
    | none =>
      let m := env.extract_metadata file_path
      (m, cache.set_mod_file_info file_path m)
  let meta := step.1
  let cache1 := step.2
  match meta.mod_id with
  | none => (none, cache1)
  | some mid =>
    if mid.isEmpty then (none, cache1)
    else if env.ignore_mods.contains mid then (none, cache1)
    else
      let pr := ModUpdateChecker.get_project_ids env cache1 force_update mid
      let cr := ModUpdateChecker.check_for_update env pr.cache force_update meta pr.result
      (cr.1, cr.2.1)

/-- The `check_updates` accumulation loop: a verdict is appended to the
output only when it exists and its `update_available` flag is truthy. -/
def checkLoop (env : CheckerEnv) (force_update : Bool) :
    List String → ModCache → List UpdateInfo × ModCache
  | [], cache => ([], cache)
  | fp :: rest, cache =>
    let s := processFile env force_update cache fp
    let t := checkLoop env force_update rest s.2
    match s.1 with
    | some u => if u.update_available then (u :: t.1, t.2) else t
    | none => t

/-- Every `VERDICT_READY` result of the same run, in discovery order:
the identical per-file pipeline (threading the identical cache states),
collecting each produced verdict whether or not an update is
available. -/
def allVerdicts (env : CheckerEnv) (force_update : Bool) :
    List String → ModCache → List UpdateInfo × ModCache
  | [], cache => ([], cache)
  | fp :: rest, cache =>
    let s := processFile env force_update cache fp
    let t := allVerdicts env force_update rest s.2
    match s.1 with
    | some u => (u :: t.1, t.2)
    | none => t

/-- Embedding of `ModUpdateChecker.check_updates` from the point where
the discovered mod files are known (directory scanning and progress
display are external): process each file in discovery order, then clean
up and persist the cache.  Returns the update list and the final
cache. -/
def ModUpdateChecker.check_updates (env : CheckerEnv) (force_update : Bool)
    (files : List String) (cache : ModCache) : List UpdateInfo × ModCache :=
  if files.isEmpty then ([], cache)
  else
    let r := checkLoop env force_update files cache
    (r.1, r.2.clean_up files)

/-! ### Helper lemmas: association lists -/

theorem lookupA_insertA_self {α : Type} (k : String) (v : α) (m : List (String × α)) :
    lookupA k (insertA k v m) = some v := by
  induction m with
  | nil => simp [insertA, lookupA]
  | cons hd tl ih =>
    by_cases h : k = hd.1
    · simp [insertA, lookupA, h]
    · simp [insertA, lookupA, h, ih]

theorem lookupA_insertA_ne {α : Type} {k k2 : String} (h : k ≠ k2) (v : α)
    (m : List (String × α)) : lookupA k (insertA k2 v m) = lookupA k m := by
  induction m with
  | nil => simp [insertA, lookupA, h]
  | cons hd tl ih =>
    by_cases h2 : k2 = hd.1
    · subst h2
      simp [insertA, lookupA, h]
    · by_cases h3 : k = hd.1 <;> simp [insertA, lookupA, h2, h3, ih]

/-! ### Helper lemmas: irreflexivity of the Python comparisons -/

theorem pyCharsLt_self (l : List Char) : pyCharsLt l l = false := by
  induction l with
  | nil => rfl
  | cons c cs ih => simp [pyCharsLt, ih]

theorem versionLt_self (v : Version) : versionLt v v = false := by
  unfold versionLt
  cases h : truthyChars v.prerelease <;>
    simp [h, pyCharsLt_self]

/-! ### Claim C4 -/

/-- Claim C4: `has_update(x, x)` is false for every valid version string
`x` — comparing a version against itself never reports an update.  The
comparator builds the same `Version` value twice and `Version.__lt__` is
irreflexive. -/
theorem claim_C4_no_self_update (x : List Char) (h : is_valid_version x = true) :
    compare_versions x x = false := by
  unfold compare_versions
  exact versionLt_self (mkVersion x)

/-- Witness for C4 at the concrete valid version string `"1.0.0"`. -/
theorem claim_C4_no_self_update_witness :
    is_valid_version "1.0.0".toList = true ∧
      compare_versions "1.0.0".toList "1.0.0".toList = false :=
  ⟨by decide, claim_C4_no_self_update "1.0.0".toList (by decide)⟩

/-! ### Claim C5 -/

/-- Claim C5: with equal numeric components, a version carrying a
prerelease tag sorts strictly below one without; concretely
`has_update("1.0.0-alpha", "1.0.0")` is true. -/
theorem claim_C5_prerelease_sorts_below :
    (∀ a b : Version, a.components = b.components →
      truthyChars a.prerelease = true → truthyChars b.prerelease = false →
      versionLt a b = true ∧ versionLt b a = false) ∧
    compare_versions "1.0.0-alpha".toList "1.0.0".toList = true := by
  constructor
  · intro a b hc hpa hpb
    constructor
    · unfold versionLt
      simp [hc, hpa, hpb]
    · unfold versionLt
      simp [hc, hpa, hpb]
  · decide

/-- Witness for C5: the general ordering statement applied to the two
concrete `Version` values of the claim. -/
theorem claim_C5_prerelease_sorts_below_witness :
    versionLt (mkVersion "1.0.0-alpha".toList) (mkVersion "1.0.0".toList) = true ∧
      versionLt (mkVersion "1.0.0".toList) (mkVersion "1.0.0-alpha".toList) = false :=
  claim_C5_prerelease_sorts_below.1 (mkVersion "1.0.0-alpha".toList)
    (mkVersion "1.0.0".toList) (by decide) (by decide) (by decide)

/-! ### Claim C6 -/

theorem cmpPadGo_eq_find (cur lat : List Nat) (n : Nat) : ∀ i,
    cmpPadGo cur lat n i =
      (match (List.range' i n).find? (fun j => decide (cur.getD j 0 ≠ lat.getD j 0)) with
       | none => false
       | some j => decide (cur.getD j 0 < lat.getD j 0)) := by
  induction n with
  | zero => intro i; simp [cmpPadGo]
  | succ n ih =>
    intro i
    rw [List.range'_succ]
    simp only [cmpPadGo]
    by_cases h : cur.getD i 0 = lat.getD i 0
    · rw [List.find?_cons_of_neg _ (by simpa using h)]
      rw [h]
      have hirr : ¬ (lat.getD i 0 < lat.getD i 0) := Nat.lt_irrefl _
      rw [if_neg hirr, if_neg hirr]
      exact ih (i + 1)
    · rw [List.find?_cons_of_pos _ (by simpa using h)]
      rcases Nat.lt_trichotomy (cur.getD i 0) (lat.getD i 0) with hlt | heq | hgt
      · rw [if_pos hlt]
        exact (decide_eq_true hlt).symm
      · exact absurd heq h
      · rw [if_neg (Nat.lt_asymm hgt), if_pos hgt]
        exact (decide_eq_false (Nat.lt_asymm hgt)).symm

/-- Claim C6: the fallback comparison path behaves as specified — it
returns false on textually identical normalized strings and otherwise
compares the parsed integer sequences position by position with missing
positions as zero, deciding at the first difference and returning false
on a tie; concretely, comparing `"1.2"` against `"1.2.0"` (components
`[1,2]` against `[1,2,0]`) yields false. -/
theorem claim_C6_fallback_compare :
    (∀ current latest : List Char,
      simple_version_compare current latest =
        (if normalize_version current = normalize_version latest then false
         else
           specFallbackCompare (parse_version (normalize_version current))
             (parse_version (normalize_version latest)))) ∧
    simple_version_compare "1.2".toList "1.2.0".toList = false ∧
    specFallbackCompare [1, 2] [1, 2, 0] = false := by
  refine ⟨?_, by decide, by decide⟩
  intro current latest
  unfold simple_version_compare specFallbackCompare
  by_cases h : normalize_version current = normalize_version latest
  · simp [h]
  · simp only [h, if_false]
    rw [cmpPadGo_eq_find, List.range_eq_range']

/-! ### Claim C7 -/

/-- Lookup of one provider's stored project id for a mod: the inner
per-provider dictionary entry, when both exist. -/
def innerLookup (c : ModCache) (mod_id p : String) : Option String :=
  (lookupA mod_id c.project_ids).bind (lookupA p)

theorem innerLookup_set_modrinth (c : ModCache) (mod_id : String)
    (mr cf : Option String) :
    innerLookup (c.set_project_ids mod_id mr cf) mod_id "modrinth" =
      (match mr with
       | some v => some v
       | none => innerLookup c mod_id "modrinth") := by
  unfold innerLookup ModCache.set_project_ids
  rw [lookupA_insertA_self]
  simp only [Option.some_bind]
  cases cf with
  | none =>
    cases mr with
    | none =>
      cases h : lookupA mod_id c.project_ids <;> simp [h, lookupA]
    | some v => simp [lookupA_insertA_self]
  | some w =>
    rw [lookupA_insertA_ne (by decide)]
    cases mr with
    | none =>
      cases h : lookupA mod_id c.project_ids <;> simp [h, lookupA]
    | some v => simp [lookupA_insertA_self]

theorem innerLookup_set_curseforge (c : ModCache) (mod_id : String)
    (mr cf : Option String) :
    innerLookup (c.set_project_ids mod_id mr cf) mod_id "curseforge" =
      (match cf with
       | some v => some v
       | none => innerLookup c mod_id "curseforge") := by
  unfold innerLookup ModCache.set_project_ids
  rw [lookupA_insertA_self]
  simp only [Option.some_bind]
  cases cf with
  | some w => simp [lookupA_insertA_self]
  | none =>
    cases mr with
    | none =>
      cases h : lookupA mod_id c.project_ids <;> simp [h, lookupA]
    | some v =>
      rw [lookupA_insertA_ne (by decide)]
      cases h : lookupA mod_id c.project_ids <;> simp [h, lookupA]

/-- Claim C7: `set_project_ids` merges rather than overwrites — a
provider's stored id changes only when the supplied value is non-absent
and an absent argument never clears an existing id; concretely, storing
a modrinth id for `"sodium"` and then a curseforge id leaves both
present. -/
theorem claim_C7_set_project_ids_merges :
    (∀ (c : ModCache) (mod_id : String) (mr cf : Option String),
      innerLookup (c.set_project_ids mod_id mr cf) mod_id "modrinth" =
        (match mr with
         | some v => some v
         | none => innerLookup c mod_id "modrinth") ∧
      innerLookup (c.set_project_ids mod_id mr cf) mod_id "curseforge" =
        (match cf with
         | some v => some v
         | none => innerLookup c mod_id "curseforge")) ∧
    (innerLookup ((emptyCache.set_project_ids "sodium" (some "AAA") none).set_project_ids
        "sodium" none (some "BBB")) "sodium" "modrinth" = some "AAA" ∧
      innerLookup ((emptyCache.set_project_ids "sodium" (some "AAA") none).set_project_ids
        "sodium" none (some "BBB")) "sodium" "curseforge" = some "BBB") :=
  ⟨fun c mod_id mr cf =>
      ⟨innerLookup_set_modrinth c mod_id mr cf, innerLookup_set_curseforge c mod_id mr cf⟩,
    by decide, by decide⟩

/-! ### Claim C10 -/

theorem get_after_partial_set (c : ModCache) (mod_id id : String)
    (h : lookupA mod_id c.project_ids = none) :
    (c.set_project_ids mod_id (some id) none).get_project_ids mod_id =
      [("modrinth", some id)] := by
  unfold ModCache.set_project_ids ModCache.get_project_ids
  simp [h, lookupA_insertA_self, insertA]

theorem get_unseen_default (c : ModCache) (mod_id : String)
    (h : lookupA mod_id c.project_ids = none) :
    c.get_project_ids mod_id = defaultProjectIds := by
  unfold ModCache.get_project_ids
  rw [h]

theorem get_seen_ne_default (c : ModCache) (mod_id : String)
    (inner : List (String × String))
    (h : lookupA mod_id c.project_ids = some inner) :
    c.get_project_ids mod_id ≠ defaultProjectIds := by
  unfold ModCache.get_project_ids
  rw [h]
  cases inner with
  | nil => simp [defaultProjectIds]
  | cons p rest => simp [defaultProjectIds]

theorem get_project_ids_trusts_partial (env : CheckerEnv) (c : ModCache)
    (mod_id id : String) (h : lookupA mod_id c.project_ids = some [("modrinth", id)])
    (hid : id ≠ "") :
    ModUpdateChecker.get_project_ids env c false mod_id =
      { result := [("modrinth", some id)], cache := c, queried := [] } := by
  unfold ModUpdateChecker.get_project_ids ModCache.get_project_ids
  rw [h]
  have hie : id.isEmpty = false := by
    cases he : id.isEmpty
    · rfl
    · exact absurd ((String.isEmpty_iff id).mp he) hid
  simp [truthyStr, hie]

/-- Claim C10: after `set_project_ids` stored an id for only one
provider, `get_project_ids` returns a map with no key at all for the
other provider (rather than that provider mapped to absent); the
zero-value map with every provider absent is returned only for mods
never seen by `set_project_ids`; and the orchestrator's all-values-
present check accepts such a partial map, so the missing provider is
never queried on later, non-forced runs. -/
theorem claim_C10_partial_map_trusted :
    (∀ (c : ModCache) (mod_id id : String),
      lookupA mod_id c.project_ids = none →
        (c.set_project_ids mod_id (some id) none).get_project_ids mod_id =
          [("modrinth", some id)]) ∧
    (∀ (c : ModCache) (mod_id : String),
      (lookupA mod_id c.project_ids = none →
        c.get_project_ids mod_id = defaultProjectIds) ∧
      (∀ inner, lookupA mod_id c.project_ids = some inner →
        c.get_project_ids mod_id ≠ defaultProjectIds)) ∧
    (∀ (env : CheckerEnv) (c : ModCache) (mod_id id : String),
      lookupA mod_id c.project_ids = some [("modrinth", id)] → id ≠ "" →
        ModUpdateChecker.get_project_ids env c false mod_id =
          { result := [("modrinth", some id)], cache := c, queried := [] }) :=
  ⟨get_after_partial_set,
    fun c mod_id =>
      ⟨get_unseen_default c mod_id, fun inner => get_seen_ne_default c mod_id inner⟩,
    get_project_ids_trusts_partial⟩

/-- A concrete environment for the C10 witness scenario: both providers
configured, modrinth primary. -/
def envC10 : CheckerEnv :=
  { providers := ["modrinth", "curseforge"],
    resolveProjectId := fun _ _ => some "X",
    resolveLatest := fun _ _ _ _ => none,
    primary := "modrinth", fallback := "curseforge",
    game_version := "1.20.4", mod_loader := "fabric",
    ignore_mods := [],
    extract_metadata := fun _ =>
      { file_name := "", mod_id := none, mod_name := none, version := none } }

/-- The cache of the C10 witness: `"sodium"` was seen with a modrinth id
only. -/
def cacheC10 : ModCache :=
  { mod_files := [], project_ids := [("sodium", [("modrinth", "AAA")])],
    latest_versions := [] }

/-- Witness for C10: the three statements at the concrete scenario —
no curseforge key after a modrinth-only store, the zero-value map
distinction, and a later cache-trusting run with zero queries. -/
theorem claim_C10_partial_map_trusted_witness :
    (emptyCache.set_project_ids "sodium" (some "AAA") none).get_project_ids "sodium" =
        [("modrinth", some "AAA")] ∧
      cacheC10.get_project_ids "sodium" ≠ defaultProjectIds ∧
      ModUpdateChecker.get_project_ids envC10 cacheC10 false "sodium" =
        { result := [("modrinth", some "AAA")], cache := cacheC10, queried := [] } :=
  ⟨claim_C10_partial_map_trusted.1 emptyCache "sodium" "AAA" (by decide),
    (claim_C10_partial_map_trusted.2.1 cacheC10 "sodium").2 [("modrinth", "AAA")] (by decide),
    claim_C10_partial_map_trusted.2.2 envC10 cacheC10 "sodium" "AAA" (by decide) (by decide)⟩

/-! ### Claim C3 -/

/-- Environment of the C3 counterexample: both providers configured and
able to resolve ids. -/
def envC3 : CheckerEnv :=
  { providers := ["modrinth", "curseforge"],
    resolveProjectId := fun _ _ => some "FRESH",
    resolveLatest := fun _ _ _ _ => none,
    primary := "modrinth", fallback := "curseforge",
    game_version := "1.20.4", mod_loader := "fabric",
    ignore_mods := [],
    extract_metadata := fun _ =>
      { file_name := "", mod_id := none, mod_name := none, version := none } }

/-- Cache of the C3 counterexample: both providers' ids already known
for `"m"`. -/
def cacheC3 : ModCache :=
  { mod_files := [],
    project_ids := [("m", [("modrinth", "A"), ("curseforge", "B")])],
    latest_versions := [] }

/-- Counterexample to C3 as stated: with force-refresh requested and the
cache already holding both configured providers' project ids, the
orchestrator performs zero `resolve_identity` queries — not one per
configured provider as the claim asserts. -/
theorem claim_C3_counterexample :
    innerLookup cacheC3 "m" "modrinth" = some "A" ∧
      innerLookup cacheC3 "m" "curseforge" = some "B" ∧
      envC3.providers = ["modrinth", "curseforge"] ∧
      (ModUpdateChecker.get_project_ids envC3 cacheC3 true "m").queried = [] := by
  refine ⟨by decide, by decide, rfl, by decide⟩

theorem lookupA_insertA_isSome {α : Type} (k k2 : String) (v : α)
    (m : List (String × α)) (h : (lookupA k m).isSome = true) :
    (lookupA k (insertA k2 v m)).isSome = true := by
  by_cases hk : k = k2
  · subst hk
    rw [lookupA_insertA_self]
    rfl
  · rwa [lookupA_insertA_ne hk]

theorem set_project_ids_keeps (c : ModCache) (mod_id : String)
    (mr cf : Option String) (m2 p v : String)
    (h : innerLookup c m2 p = some v) :
    (innerLookup (c.set_project_ids mod_id mr cf) m2 p).isSome = true := by
  unfold innerLookup at h ⊢
  unfold ModCache.set_project_ids
  by_cases hm : m2 = mod_id
  · subst hm
    cases hl : lookupA m2 c.project_ids with
    | none => rw [hl] at h; simp at h
    | some inner =>
      rw [hl] at h
      simp only [Option.some_bind] at h
      have hbase : (lookupA p inner).isSome = true := by rw [h]; rfl
      simp only [lookupA_insertA_self, Option.some_bind, hl, Option.getD_some]
      cases mr with
      | none =>
        cases cf with
        | none => exact hbase
        | some w => exact lookupA_insertA_isSome p "curseforge" w inner hbase
      | some u =>
        cases cf with
        | none => exact lookupA_insertA_isSome p "modrinth" u inner hbase
        | some w =>
          exact lookupA_insertA_isSome p "curseforge" w _
            (lookupA_insertA_isSome p "modrinth" u inner hbase)
  · simp only [lookupA_insertA_ne hm]
    rw [h]
    rfl

/-- Claim C3, amended: when force-refresh is requested the orchestrator
skips the trust-the-cache early return, but it still queries
`resolve_identity` only for those configured providers whose cached id
is absent or falsy — a provider whose id is already cached is not
re-queried — and the cache write never clears an existing stored id. -/
theorem claim_C3_amended (env : CheckerEnv) (c : ModCache) (mod_id : String) :
    ((ModUpdateChecker.get_project_ids env c true mod_id).queried =
      (if env.providers.contains env.primary &&
          !truthyStr (getDict (c.get_project_ids mod_id) env.primary)
        then [env.primary] else [])
      ++ (if env.providers.contains env.fallback &&
          !truthyStr (getDict (c.get_project_ids mod_id) env.fallback)
        then [env.fallback] else [])) ∧
    (∀ m2 p v : String, innerLookup c m2 p = some v →
      (innerLookup (ModUpdateChecker.get_project_ids env c true mod_id).cache m2 p).isSome
        = true) := by
  constructor
  · simp [ModUpdateChecker.get_project_ids]
  · intro m2 p v h
    unfold ModUpdateChecker.get_project_ids
    simp only [Bool.not_true, Bool.false_and, Bool.false_eq_true, if_false]
    by_cases hupd :
        ((if env.providers.contains env.fallback &&
            !truthyStr (getDict (c.get_project_ids mod_id) env.fallback)
          then insertA env.fallback (env.resolveProjectId env.fallback mod_id)
            (if env.providers.contains env.primary &&
                !truthyStr (getDict (c.get_project_ids mod_id) env.primary)
              then insertA env.primary (env.resolveProjectId env.primary mod_id) []
              else [])
          else
            (if env.providers.contains env.primary &&
                !truthyStr (getDict (c.get_project_ids mod_id) env.primary)
              then insertA env.primary (env.resolveProjectId env.primary mod_id) []
              else [])) : List (String × Option String)).isEmpty
    · simp only [hupd, if_true]
      rw [h]; rfl
    · simp only [hupd, if_false]
      exact set_project_ids_keeps c mod_id _ _ m2 p v h

/-- Witness for the amended C3 at the counterexample scenario: both ids
cached, so the queried list is empty and the stored ids survive. -/
theorem claim_C3_amended_witness :
    (ModUpdateChecker.get_project_ids envC3 cacheC3 true "m").queried = [] ∧
      (innerLookup (ModUpdateChecker.get_project_ids envC3 cacheC3 true "m").cache
        "m" "modrinth").isSome = true :=
  ⟨by
      have h := (claim_C3_amended envC3 cacheC3 "m").1
      rw [h]; decide,
    (claim_C3_amended envC3 cacheC3 "m").2 "m" "modrinth" "A" (by decide)⟩

/-! ### Claim C9 -/

theorem gatherCached_lookup (env : CheckerEnv) (c : ModCache)
    (pids : List (String × Option String)) (pid : String) (info : VInfo)
    (hp : lookupA env.primary pids = some (some pid)) (hpid : pid.isEmpty = false)
    (hc : c.get_version_info env.primary pid env.game_version env.mod_loader = some info) :
    lookupA env.primary (gatherCached env c false pids) = some info := by
  induction pids with
  | nil => simp [lookupA] at hp
  | cons hd rest ih =>
    obtain ⟨prov, pidO⟩ := hd
    by_cases hk : env.primary = prov
    · subst hk
      have h2 : pidO = some pid := by
        rw [lookupA, if_pos rfl] at hp
        exact Option.some.inj hp
      subst h2
      simp only [gatherCached, hpid, Bool.false_eq_true, if_false, hc]
      rw [lookupA, if_pos rfl]
    · have hp2 : lookupA env.primary rest = some (some pid) := by
        rw [lookupA, if_neg hk] at hp
        exact hp
      have ih2 := ih hp2
      cases pidO with
      | none => simpa [gatherCached] using ih2
      | some q =>
        by_cases hq : q.isEmpty
        · simpa [gatherCached, hq] using ih2
        · cases hcv : c.get_version_info prov q env.game_version env.mod_loader with
          | none => simpa [gatherCached, hq, hcv] using ih2
          | some vi => simpa [gatherCached, hq, hcv, lookupA, hk] using ih2

/-- Claim C9: without force-refresh, when the cache holds a version
record for the primary provider's project id (for the configured game
version and loader), `_get_latest_version` returns that cached record
and performs no live `get_latest_version` call — whatever the fallback
provider's cache state. -/
theorem claim_C9_cached_primary_no_live_calls (env : CheckerEnv) (c : ModCache)
    (project_ids : List (String × Option String)) (pid : String) (info : VInfo)
    (hp : lookupA env.primary project_ids = some (some pid)) (hpid : pid ≠ "")
    (hc : c.get_version_info env.primary pid env.game_version env.mod_loader = some info) :
    ModUpdateChecker.get_latest_version env c false project_ids =
      { result := some info, cache := c, calls := [] } := by
  have hie : pid.isEmpty = false := by
    cases he : pid.isEmpty
    · rfl
    · exact absurd ((String.isEmpty_iff pid).mp he) hpid
  have hg := gatherCached_lookup env c project_ids pid info hp hie hc
  unfold ModUpdateChecker.get_latest_version
  have hne : (gatherCached env c false project_ids).isEmpty = false := by
    cases hgl : gatherCached env c false project_ids with
    | nil => rw [hgl] at hg; simp [lookupA] at hg
    | cons a b => rfl
  simp only [hne, Bool.false_eq_true, if_false, hg]

/-- Environment of the C9 witness: both providers configured, live
calls would be observable. -/
def envC9 : CheckerEnv :=
  { providers := ["modrinth", "curseforge"],
    resolveProjectId := fun _ _ => none,
    resolveLatest := fun p pid _ _ => some
      { version_number := some "9.9.9".toList, provider := some p,
        date_published := some (String.toList ("live-" ++ pid)) },
    primary := "modrinth", fallback := "curseforge",
    game_version := "1.20.4", mod_loader := "fabric",
    ignore_mods := [],
    extract_metadata := fun _ =>
      { file_name := "", mod_id := none, mod_name := none, version := none } }

/-- The cached record of the C9 witness. -/
def infoC9 : VInfo :=
  { version_number := some "2.0.0".toList, provider := some "modrinth",
    date_published := none }

/-- Cache of the C9 witness: the primary provider's record is cached
(and the fallback has none). -/
def cacheC9 : ModCache :=
  { mod_files := [], project_ids := [],
    latest_versions := [("modrinth:P1:1.20.4:fabric", infoC9)] }

/-- Witness for C9: with the primary record cached, resolution returns
it with zero live calls. -/
theorem claim_C9_cached_primary_no_live_calls_witness :
    ModUpdateChecker.get_latest_version envC9 cacheC9 false
        [("modrinth", some "P1"), ("curseforge", some "P2")] =
      { result := some infoC9, cache := cacheC9, calls := [] } :=
  claim_C9_cached_primary_no_live_calls envC9 cacheC9
    [("modrinth", some "P1"), ("curseforge", some "P2")] "P1" infoC9
    (by decide) (by decide) (by decide)

/-! ### Claim C8 -/

/-- `datetime.fromisoformat` at the C8 failing input: the rewritten
string `2020-01-01T00:00:00+00:00` parses to an offset-aware datetime
(epoch seconds 1577836800); a naive variant without the offset parses
offset-naive. -/
def parseIsoC8 : List Char → Option PyDate := fun l =>
  if l = "2020-01-01T00:00:00+00:00".toList then
    some { seconds := 1577836800, aware := true }
  else if l = "2020-01-01T00:00:00".toList then
    some { seconds := 1577836800, aware := false }
  else none

/-- The stale cached record with a `Z`-suffixed publish timestamp. -/
def infoC8 : VInfo :=
  { version_number := some "1.0.0".toList, provider := some "modrinth",
    date_published := some "2020-01-01T00:00:00Z".toList }

/-- The same record with an offset-naive publish timestamp. -/
def infoC8naive : VInfo :=
  { version_number := some "1.0.0".toList, provider := some "modrinth",
    date_published := some "2020-01-01T00:00:00".toList }

/-- One-entry caches for the C8 evaluation. -/
def cacheC8 : ModCache :=
  { mod_files := [], project_ids := [],
    latest_versions := [("modrinth:P:1.20.4:fabric", infoC8)] }

def cacheC8naive : ModCache :=
  { mod_files := [], project_ids := [],
    latest_versions := [("modrinth:P:1.20.4:fabric", infoC8naive)] }

/-- Claim C8 evaluated at the failing input (`now` is 2025-10-12 UTC,
threshold 30 days): the `Z`-suffixed timestamp parses and is almost six
years old, yet `prune_old_versions` retains the entry — converting `Z`
to `+00:00` yields an offset-aware datetime whose subtraction from the
naive `datetime.now()` raises `TypeError`, which the handler swallows.
The same record with an offset-naive timestamp of the same age is
removed, isolating awareness as the cause. -/
theorem claim_C8_prune_retains_aware_timestamps :
    parseIsoC8 (fixZ "2020-01-01T00:00:00Z".toList) =
        some { seconds := 1577836800, aware := true } ∧
      ((1760227200 : Int) - 1577836800 > 30 * 24 * 3600) ∧
      cacheC8.prune_old_versions parseIsoC8 1760227200 30 = (cacheC8, 0) ∧
      (cacheC8naive.prune_old_versions parseIsoC8 1760227200 30).2 = 1 ∧
      (cacheC8naive.prune_old_versions parseIsoC8 1760227200 30).1.latest_versions = [] := by
  refine ⟨by decide, by decide, by decide, by decide, by decide⟩

/-! ### Claim C1 -/

theorem checkLoop_eq_filter (env : CheckerEnv) (force : Bool) (files : List String) :
    ∀ cache : ModCache,
      checkLoop env force files cache =
        ((allVerdicts env force files cache).1.filter (fun u => u.update_available),
          (allVerdicts env force files cache).2) := by
  induction files with
  | nil => intro cache; simp [checkLoop, allVerdicts]
  | cons fp rest ih =>
    intro cache
    simp only [checkLoop, allVerdicts]
    rw [ih (processFile env force cache fp).2]
    cases h : (processFile env force cache fp).1 with
    | none => simp
    | some u =>
      by_cases hu : u.update_available
      · simp [hu]
      · simp [hu]

/-- Claim C1, amended: `check_updates` returns, in discovery order,
exactly those `VERDICT_READY` results whose `update_available` flag is
true — a package that reaches `VERDICT_READY` with the verdict "no
update available" is filtered out of the returned sequence. -/
theorem claim_C1_amended (env : CheckerEnv) (force : Bool) (files : List String)
    (cache : ModCache) :
    (ModUpdateChecker.check_updates env force files cache).1 =
      (allVerdicts env force files cache).1.filter (fun u => u.update_available) := by
  unfold ModUpdateChecker.check_updates
  cases files with
  | nil => simp [allVerdicts]
  | cons fp rest =>
    simp only [List.isEmpty_cons, Bool.false_eq_true, if_false]
    rw [checkLoop_eq_filter]

/-- Environment of the C1 counterexample: one mod whose installed
version equals the provider's latest version. -/
def envC1 : CheckerEnv :=
  { providers := ["modrinth"],
    resolveProjectId := fun p mid =>
      if p = "modrinth" && mid = "m" then some "P1" else none,
    resolveLatest := fun p pid _ _ =>
      if p = "modrinth" && pid = "P1" then
        some { version_number := some "1.0.0".toList, provider := some "modrinth",
               date_published := none }
      else none,
    primary := "modrinth", fallback := "curseforge",
    game_version := "1.20.4", mod_loader := "fabric",
    ignore_mods := [],
    extract_metadata := fun fp =>
      if fp = "a.jar" then
        { file_name := "a.jar", mod_id := some "m", mod_name := some "M",
          version := some "1.0.0".toList }
      else { file_name := fp, mod_id := none, mod_name := none, version := none } }

/-- Counterexample to C1 as stated: the single package reaches
`VERDICT_READY` with verdict "no update available", yet `check_updates`
returns the empty sequence instead of that verdict — no-update verdicts
are filtered out, contradicting the claim that they are included. -/
theorem claim_C1_counterexample :
    ((allVerdicts envC1 false ["a.jar"] emptyCache).1.map
        (fun u => u.update_available) = [false]) ∧
      (ModUpdateChecker.check_updates envC1 false ["a.jar"] emptyCache).1 = [] := by
  refine ⟨by decide, by decide⟩

/-! ### Claim C2 -/

/-- Counterexample to C2 as stated: `normalize` is not idempotent.
`normalize("vv1.0")` strips only one leading `v`, giving `"v1.0"`, and a
second application strips the next one, giving `"1.0"`. -/
theorem claim_C2_counterexample :
    normalize_version "vv1.0".toList = "v1.0".toList ∧
      normalize_version (normalize_version "vv1.0".toList) = "1.0".toList ∧
      normalize_version (normalize_version "vv1.0".toList) ≠
        normalize_version "vv1.0".toList := by
  refine ⟨by decide, by decide, by decide⟩

theorem dotDigit_ne {c d : Char} (h : isDotDigitC c = true)
    (hd : isDotDigitC d = false) : c ≠ d := by
  intro he
  subst he
  exact absurd (h.symm.trans hd) (by decide)

theorem dotDigit_not_letter {c : Char} (h : isDotDigitC c = true) :
    isAsciiLetterC c = false := by
  simp only [isDotDigitC, isDigitC, Bool.or_eq_true, Bool.and_eq_true,
    decide_eq_true_eq] at h
  simp only [isAsciiLetterC, Bool.or_eq_false_iff, Bool.and_eq_false_iff,
    decide_eq_false_iff_not, Nat.not_le]
  rcases h with hr | hd
  · constructor
    · left; omega
    · left; omega
  · subst hd
    constructor
    · left; decide
    · left; decide

theorem dotDigit_not_space {c : Char} (h : isDotDigitC c = true) :
    isPySpace c = false := by
  cases hs : isPySpace c
  · rfl
  · exfalso
    simp only [isPySpace, Bool.or_eq_true, decide_eq_true_eq] at hs
    rcases hs with (((((h1 | h1) | h1) | h1) | h1) | h1) <;>
      (subst h1; exact absurd h (by decide))

theorem lowerStartsWithV_of_dotDigit {l : List Char}
    (h : ∀ c ∈ l, isDotDigitC c = true) : lowerStartsWithV l = false := by
  cases l with
  | nil => rfl
  | cons c cs =>
    have hc := h c (List.mem_cons_self c cs)
    simp only [lowerStartsWithV, Bool.or_eq_false_iff, decide_eq_false_iff_not]
    exact ⟨dotDigit_ne hc (by decide), dotDigit_ne hc (by decide)⟩

theorem group2_group {r g : List Char} (h : group2 r = some g) :
    ∀ c ∈ g, isDotDigitC c = true := by
  unfold group2 at h
  split at h
  · exact absurd h (by simp)
  · intro c hc
    rw [← Option.some.inj h] at hc
    exact List.mem_takeWhile_imp hc

theorem mcTail2_group {r3 g : List Char} (h : mcTail2 r3 = some g) :
    ∀ c ∈ g, isDotDigitC c = true := by
  unfold mcTail2 at h
  split at h
  · exact absurd h (by simp)
  · split at h
    · exact group2_group h
    · split at h
      · split at h
        · exact absurd h (by simp)
        · split at h
          · exact absurd h (by simp)
          · split at h
            · exact group2_group h
            · exact absurd h (by simp)
      · exact absurd h (by simp)

theorem mcAfterMC_group {rest g : List Char} (h : mcAfterMC rest = some g) :
    ∀ c ∈ g, isDotDigitC c = true := by
  unfold mcAfterMC at h
  split at h
  · exact absurd h (by simp)
  · split at h
    · exact absurd h (by simp)
    · split at h
      · split at h
        · exact absurd h (by simp)
        · exact mcTail2_group h
      · exact absurd h (by simp)

theorem mcMatchAt_group {l g : List Char} (h : mcMatchAt l = some g) :
    ∀ c ∈ g, isDotDigitC c = true := by
  unfold mcMatchAt at h
  split at h
  · split at h
    · exact mcAfterMC_group h
    · exact absurd h (by simp)
  · exact absurd h (by simp)

theorem digits_dotDigit {r : List Char} {c : Char}
    (hc : c ∈ r.takeWhile isDigitC) : isDotDigitC c = true := by
  have := List.mem_takeWhile_imp hc
  simp [isDotDigitC, this]

theorem mem_dd2 {a b : List Char} :
    ∀ c ∈ (a.takeWhile isDigitC ++ '.' :: b.takeWhile isDigitC),
      isDotDigitC c = true := by
  intro c hc
  rcases List.mem_append.mp hc with h1 | h1
  · exact digits_dotDigit h1
  · rcases List.mem_cons.mp h1 with h2 | h2
    · subst h2; decide
    · exact digits_dotDigit h2

theorem mem_dd3 {a b d : List Char} :
    ∀ c ∈ (a.takeWhile isDigitC ++ '.' :: b.takeWhile isDigitC
        ++ '.' :: d.takeWhile isDigitC),
      isDotDigitC c = true := by
  intro c hc
  rcases List.mem_append.mp hc with h1 | h1
  · exact mem_dd2 c h1
  · rcases List.mem_cons.mp h1 with h2 | h2
    · subst h2; decide
    · exact digits_dotDigit h2

theorem dashMatchAt_group {l g : List Char} (h : dashMatchAt l = some g) :
    ∀ c ∈ g, isDotDigitC c = true := by
  unfold dashMatchAt at h
  split at h
  · exact absurd h (by simp)
  · split at h
    · exact absurd h (by simp)
    · split at h
      · split at h
        · exact absurd h (by simp)
        · split at h
          · exact absurd h (by simp)
          · split at h
            · split at h
              · exact absurd h (by simp)
              · split at h
                · rw [← Option.some.inj h]
                  exact mem_dd2
                · split at h
                  · split at h
                    · rw [← Option.some.inj h]
                      exact mem_dd2
                    · rw [← Option.some.inj h]
                      exact mem_dd3
                  · rw [← Option.some.inj h]
                    exact mem_dd2
            · exact absurd h (by simp)
      · exact absurd h (by simp)

theorem searchO_group {m : List Char → Option (List Char)}
    {P : List Char → Prop} (hm : ∀ r g, m r = some g → P g) :
    ∀ {l g : List Char}, searchO m l = some g → P g := by
  intro l
  induction l with
  | nil => intro g h; exact absurd h (by simp [searchO])
  | cons c cs ih =>
    intro g h
    rw [searchO] at h
    cases hm2 : m (c :: cs) with
    | some g2 =>
      rw [hm2] at h
      exact hm _ _ (hm2.trans h)
    | none =>
      rw [hm2] at h
      exact ih h

theorem searchO_mc_none_of_dotDigit {l : List Char}
    (h : ∀ c ∈ l, isDotDigitC c = true) : searchO mcMatchAt l = none := by
  induction l with
  | nil => rfl
  | cons c cs ih =>
    have hc := h c (List.mem_cons_self c cs)
    have hm : mcMatchAt (c :: cs) = none := by
      cases cs with
      | nil => rfl
      | cons c2 r =>
        have hne : (c = 'M') = False := by
          simp only [eq_iff_iff, iff_false]
          exact dotDigit_ne hc (by decide)
        simp [mcMatchAt, hne]
    rw [searchO, hm]
    exact ih (fun x hx => h x (List.mem_cons_of_mem c hx))

theorem searchO_dash_none_of_dotDigit {l : List Char}
    (h : ∀ c ∈ l, isDotDigitC c = true) : searchO dashMatchAt l = none := by
  induction l with
  | nil => rfl
  | cons c cs ih =>
    have hc := h c (List.mem_cons_self c cs)
    have hm : dashMatchAt (c :: cs) = none := by
      unfold dashMatchAt
      rw [List.takeWhile_cons_of_neg (by simp [dotDigit_not_letter hc])]
      rfl
    rw [searchO, hm]
    exact ih (fun x hx => h x (List.mem_cons_of_mem c hx))

theorem pyStrip_of_no_space {l : List Char}
    (h : ∀ c ∈ l, isPySpace c = false) : pyStrip l = l := by
  unfold pyStrip
  have h1 : l.dropWhile isPySpace = l := by
    cases l with
    | nil => rfl
    | cons c cs =>
      exact List.dropWhile_cons_of_neg (by simp [h c (List.mem_cons_self c cs)])
  rw [h1]
  exact List.rdropWhile_eq_self_iff.mpr (fun hl => by simp [h _ (List.getLast_mem hl)])

/-- A normalized value consisting only of digits and dots is a fixed
point of `normalize_version`: it has no leading `v`, matches neither
embedded pattern, and strips to itself. -/
theorem normalize_of_all_dotDigit {g : List Char}
    (hg : ∀ c ∈ g, isDotDigitC c = true) : normalize_version g = g := by
  unfold normalize_version
  rw [lowerStartsWithV_of_dotDigit hg]
  simp only [Bool.false_eq_true, if_false]
  rw [searchO_mc_none_of_dotDigit hg]
  rw [searchO_dash_none_of_dotDigit hg]
  exact pyStrip_of_no_space (fun c hc => dotDigit_not_space (hg c hc))

theorem dw_append_stop {p : Char → Bool} {xs : List Char} (ys : List Char)
    (h : xs.dropWhile p ≠ []) :
    (xs ++ ys).dropWhile p = xs.dropWhile p ++ ys := by
  rw [List.dropWhile_append]
  have he : (xs.dropWhile p).isEmpty = false := by
    cases hx : xs.dropWhile p with
    | nil => exact absurd hx h
    | cons a b => rfl
  rw [he]
  rfl

theorem tw_append_stop {p : Char → Bool} {xs : List Char} (ys : List Char)
    (h : xs.dropWhile p ≠ []) :
    (xs ++ ys).takeWhile p = xs.takeWhile p := by
  rw [List.takeWhile_append]
  have hlen : (xs.takeWhile p).length ≠ xs.length := by
    have hsplit : xs.takeWhile p ++ xs.dropWhile p = xs :=
      List.takeWhile_append_dropWhile p xs
    have hl := congrArg List.length hsplit
    rw [List.length_append] at hl
    have hpos : 0 < (xs.dropWhile p).length := List.length_pos.mpr h
    omega
  rw [if_neg hlen]

theorem group2_ext {r : List Char} (e : List Char) (h : (group2 r).isSome = true) :
    (group2 (r ++ e)).isSome = true := by
  unfold group2 at h ⊢
  cases r with
  | nil => simp [List.takeWhile] at h
  | cons c cs =>
    by_cases hc : isDotDigitC c
    · rw [List.cons_append, List.takeWhile_cons_of_pos hc]
      simp
    · rw [List.takeWhile_cons_of_neg (by simp [hc])] at h
      simp at h

theorem mcTail2_ext {r3 : List Char} (e : List Char) (h : (mcTail2 r3).isSome = true) :
    (mcTail2 (r3 ++ e)).isSome = true := by
  cases r3 with
  | nil => simp [mcTail2] at h
  | cons c r =>
    rw [List.cons_append]
    unfold mcTail2 at h ⊢
    dsimp only at h ⊢
    by_cases h1 : c = '-'
    · rw [if_pos h1] at h ⊢
      exact group2_ext e h
    · rw [if_neg h1] at h ⊢
      by_cases h2 : c = '.'
      · rw [if_pos h2] at h ⊢
        by_cases h3 : (r.takeWhile isDigitC).isEmpty
        · rw [if_pos h3] at h
          simp at h
        · rw [if_neg h3] at h
          cases h4 : r.dropWhile isDigitC with
          | nil =>
            rw [h4] at h
            simp at h
          | cons c2 r6 =>
            rw [h4] at h
            dsimp only at h
            by_cases h5 : c2 = '-'
            · rw [if_pos h5] at h
              have hne : r.dropWhile isDigitC ≠ [] := by rw [h4]; simp
              rw [tw_append_stop e hne, if_neg h3, dw_append_stop e hne, h4,
                List.cons_append]
              dsimp only
              rw [if_pos h5]
              exact group2_ext e h
            · rw [if_neg h5] at h
              simp at h
      · rw [if_neg h2] at h
        simp at h

theorem mcAfterMC_ext {rest : List Char} (e : List Char)
    (h : (mcAfterMC rest).isSome = true) : (mcAfterMC (rest ++ e)).isSome = true := by
  unfold mcAfterMC at h ⊢
  by_cases h1 : (rest.takeWhile isDigitC).isEmpty
  · rw [if_pos h1] at h
    simp at h
  · rw [if_neg h1] at h
    cases h2 : rest.dropWhile isDigitC with
    | nil =>
      rw [h2] at h
      simp at h
    | cons c r2 =>
      rw [h2] at h
      dsimp only at h
      by_cases h3 : c = '.'
      · rw [if_pos h3] at h
        by_cases h4 : (r2.takeWhile isDigitC).isEmpty
        · rw [if_pos h4] at h
          simp at h
        · rw [if_neg h4] at h
          have hne : rest.dropWhile isDigitC ≠ [] := by rw [h2]; simp
          rw [tw_append_stop e hne, if_neg h1, dw_append_stop e hne, h2,
            List.cons_append]
          dsimp only
          rw [if_pos h3]
          have hne2 : r2.dropWhile isDigitC ≠ [] := by
            intro hx
            rw [hx] at h
            simp [mcTail2] at h
          rw [tw_append_stop e hne2, if_neg h4, dw_append_stop e hne2]
          exact mcTail2_ext e h
      · rw [if_neg h3] at h
        simp at h

theorem mcMatchAt_ext {l : List Char} (e : List Char)
    (h : (mcMatchAt l).isSome = true) : (mcMatchAt (l ++ e)).isSome = true := by
  cases l with
  | nil => simp [mcMatchAt] at h
  | cons c1 l2 =>
    cases l2 with
    | nil => simp [mcMatchAt] at h
    | cons c2 rest =>
      rw [List.cons_append, List.cons_append]
      unfold mcMatchAt at h ⊢
      dsimp only at h ⊢
      by_cases hg : c1 = 'M' && c2 = 'C'
      · rw [if_pos hg] at h ⊢
        exact mcAfterMC_ext e h
      · rw [if_neg hg] at h
        simp at h

theorem dw_append_nil {p : Char → Bool} {xs : List Char} (ys : List Char)
    (h : xs.dropWhile p = []) :
    (xs ++ ys).dropWhile p = ys.dropWhile p := by
  rw [List.dropWhile_append, h]
  rfl

theorem dashMatchAt_ext {l : List Char} (e : List Char)
    (h : (dashMatchAt l).isSome = true) : (dashMatchAt (l ++ e)).isSome = true := by
  unfold dashMatchAt at h ⊢
  by_cases h1 : (l.takeWhile isAsciiLetterC).isEmpty
  · rw [if_pos h1] at h
    simp at h
  · rw [if_neg h1] at h
    cases h2 : l.dropWhile isAsciiLetterC with
    | nil =>
      rw [h2] at h
      simp at h
    | cons c r2 =>
      rw [h2] at h
      dsimp only at h
      by_cases h3 : c = '-'
      · rw [if_pos h3] at h
        by_cases h4 : (r2.takeWhile isDigitC).isEmpty
        · rw [if_pos h4] at h
          simp at h
        · rw [if_neg h4] at h
          have hneL : l.dropWhile isAsciiLetterC ≠ [] := by rw [h2]; simp
          rw [tw_append_stop e hneL, if_neg h1, dw_append_stop e hneL, h2,
            List.cons_append]
          dsimp only
          rw [if_pos h3]
          cases h5 : r2.dropWhile isDigitC with
          | nil =>
            rw [h5] at h
            simp at h
          | cons c2 r4 =>
            rw [h5] at h
            dsimp only at h
            by_cases h6 : c2 = '.'
            · rw [if_pos h6] at h
              by_cases h7 : (r4.takeWhile isDigitC).isEmpty
              · rw [if_pos h7] at h
                simp at h
              · have hne2 : r2.dropWhile isDigitC ≠ [] := by rw [h5]; simp
                rw [tw_append_stop e hne2, if_neg h4, dw_append_stop e hne2, h5,
                  List.cons_append]
                dsimp only
                rw [if_pos h6]
                cases h8 : r4.dropWhile isDigitC with
                | nil =>
                  -- the third numeric run ends at the boundary: whatever the
                  -- extension contributes, every arm returns a match
                  rw [dw_append_nil e h8]
                  have h9 : (r4 ++ e).takeWhile isDigitC = r4 ++ e.takeWhile isDigitC := by
                    rw [List.takeWhile_append]
                    have : (r4.takeWhile isDigitC).length = r4.length := by
                      have hsplit : r4.takeWhile isDigitC ++ r4.dropWhile isDigitC = r4 :=
                        List.takeWhile_append_dropWhile isDigitC r4
                      rw [h8, List.append_nil] at hsplit
                      rw [hsplit]
                    rw [if_pos this]
                  rw [h9]
                  have h10 : (r4 ++ e.takeWhile isDigitC).isEmpty = false := by
                    cases hr4 : r4 with
                    | nil =>
                      exfalso
                      rw [hr4] at h7
                      exact h7 rfl
                    | cons a b => rfl
                  rw [if_neg (by rw [h10]; exact Bool.false_ne_true)]
                  cases he2 : (e.dropWhile isDigitC) with
                  | nil => simp
                  | cons c3 r6 =>
                    dsimp only
                    by_cases h11 : c3 = '.'
                    · rw [if_pos h11]
                      by_cases h12 : (r6.takeWhile isDigitC).isEmpty
                      · rw [if_pos h12]; simp
                      · rw [if_neg h12]; simp
                    · rw [if_neg h11]; simp
                | cons c3 r6 =>
                  have hne3 : r4.dropWhile isDigitC ≠ [] := by rw [h8]; simp
                  rw [tw_append_stop e hne3, if_neg h7, dw_append_stop e hne3, h8,
                    List.cons_append]
                  dsimp only
                  by_cases h11 : c3 = '.'
                  · rw [if_pos h11]
                    by_cases h12 : ((r6 ++ e).takeWhile isDigitC).isEmpty
                    · rw [if_pos h12]; simp
                    · rw [if_neg h12]; simp
                  · rw [if_neg h11]; simp
            · rw [if_neg h6] at h
              simp at h
      · rw [if_neg h3] at h
        simp at h

theorem searchO_append_none (m : List Char → Option (List Char))
    (l1 l2 : List Char) (h : searchO m (l1 ++ l2) = none) :
    searchO m l2 = none := by
  induction l1 with
  | nil => exact h
  | cons c cs ih =>
    rw [List.cons_append, searchO] at h
    cases hm : m (c :: (cs ++ l2)) with
    | some g => rw [hm] at h; exact absurd h (by simp)
    | none => rw [hm] at h; exact ih h

theorem searchO_take (m : List Char → Option (List Char))
    (hext : ∀ x e, (m x).isSome = true → (m (x ++ e)).isSome = true) :
    ∀ (u : List Char) (k : Nat),
      (searchO m (u.take k)).isSome = true → (searchO m u).isSome = true := by
  intro u
  induction u with
  | nil => intro k h; simpa using h
  | cons c cs ih =>
    intro k h
    cases k with
    | zero => simp [searchO] at h
    | succ k2 =>
      rw [List.take_succ_cons] at h
      rw [searchO] at h
      rw [searchO]
      cases hm : m (c :: cs.take k2) with
      | some g =>
        have hx := hext (c :: cs.take k2) (cs.drop k2) (by rw [hm]; rfl)
        have heq : (c :: cs.take k2) ++ cs.drop k2 = c :: cs := by
          rw [List.cons_append, List.take_append_drop]
        rw [heq] at hx
        cases hmc : m (c :: cs) with
        | none => rw [hmc] at hx; exact absurd hx (by simp)
        | some g2 => simp
      | none =>
        rw [hm] at h
        have := ih k2 h
        cases hmc : m (c :: cs) with
        | none => exact this
        | some g2 => simp

theorem pyStrip_shape (l : List Char) :
    ∃ j k, pyStrip l = (l.drop j).take k := by
  unfold pyStrip
  obtain ⟨t, ht⟩ := List.dropWhile_suffix (l := l) (p := isPySpace)
  refine ⟨t.length, ((l.dropWhile isPySpace).rdropWhile isPySpace).length, ?_⟩
  have hdrop : l.drop t.length = l.dropWhile isPySpace := by
    conv_lhs => rw [← ht]
    rw [List.drop_left]
  rw [hdrop]
  have hpre := List.rdropWhile_prefix isPySpace (l.dropWhile isPySpace)
  exact List.prefix_iff_eq_take.mp hpre

theorem searchO_pyStrip_none (m : List Char → Option (List Char))
    (hext : ∀ x e, (m x).isSome = true → (m (x ++ e)).isSome = true)
    (v : List Char) (h : searchO m v = none) : searchO m (pyStrip v) = none := by
  obtain ⟨j, k, hs⟩ := pyStrip_shape v
  rw [hs]
  have h2 : searchO m (v.drop j) = none := by
    refine searchO_append_none m (v.take j) (v.drop j) ?_
    rw [List.take_append_drop]
    exact h
  cases hres : searchO m ((v.drop j).take k) with
  | none => rfl
  | some g =>
    exfalso
    have := searchO_take m hext (v.drop j) k (by rw [hres]; rfl)
    rw [h2] at this
    exact absurd this (by simp)

theorem dropWhile_rdropWhile_of (u : List Char)
    (hu : u.dropWhile isPySpace = u) :
    (u.rdropWhile isPySpace).dropWhile isPySpace = u.rdropWhile isPySpace := by
  obtain ⟨e, he⟩ := List.rdropWhile_prefix isPySpace u
  cases hw : u.rdropWhile isPySpace with
  | nil => rfl
  | cons c cs =>
    rw [hw] at he
    have hcu : u = c :: (cs ++ e) := by
      rw [← he, List.cons_append]
    have hc : isPySpace c = false := by
      cases hcc : isPySpace c
      · rfl
      · exfalso
        rw [hcu, List.dropWhile_cons_of_pos hcc] at hu
        have hlen := congrArg List.length hu
        have hle :=
          (List.dropWhile_suffix (p := isPySpace) (l := cs ++ e)).length_le
        simp only [List.length_cons] at hlen
        omega
    exact List.dropWhile_cons_of_neg (by simp [hc])

theorem pyStrip_idem (l : List Char) : pyStrip (pyStrip l) = pyStrip l := by
  unfold pyStrip
  rw [dropWhile_rdropWhile_of (l.dropWhile isPySpace)
    (List.dropWhile_idempotent isPySpace l)]
  exact List.rdropWhile_idempotent isPySpace (l.dropWhile isPySpace)

/-- Claim C2, amended: `normalize` is idempotent on every string whose
normalization does not itself begin with `v` or `V` — equivalently, one
application reaches a fixed point except when its result again starts
with a strippable `v` prefix (as in `"vv1.0"`). -/
theorem claim_C2_amended (s : List Char)
    (h : lowerStartsWithV (normalize_version s) = false) :
    normalize_version (normalize_version s) = normalize_version s := by
  cases hmc : searchO mcMatchAt (if lowerStartsWithV s then s.tail else s) with
  | some g =>
    have hg : ∀ c ∈ g, isDotDigitC c = true :=
      searchO_group (fun r g2 hr => mcMatchAt_group hr) hmc
    have hns : normalize_version s = g := by
      unfold normalize_version
      dsimp only
      rw [hmc]
      rw [searchO_dash_none_of_dotDigit hg]
      exact pyStrip_of_no_space (fun c hc => dotDigit_not_space (hg c hc))
    rw [hns]
    exact normalize_of_all_dotDigit hg
  | none =>
    cases hdash : searchO dashMatchAt (if lowerStartsWithV s then s.tail else s) with
    | some g =>
      have hg : ∀ c ∈ g, isDotDigitC c = true :=
        searchO_group (fun r g2 hr => dashMatchAt_group hr) hdash
      have hns : normalize_version s = g := by
        unfold normalize_version
        dsimp only
        rw [hmc, hdash]
        exact pyStrip_of_no_space (fun c hc => dotDigit_not_space (hg c hc))
      rw [hns]
      exact normalize_of_all_dotDigit hg
    | none =>
      have hns : normalize_version s =
          pyStrip (if lowerStartsWithV s then s.tail else s) := by
        unfold normalize_version
        dsimp only
        rw [hmc, hdash]
      rw [hns] at h ⊢
      unfold normalize_version
      dsimp only
      rw [h]
      simp only [Bool.false_eq_true, if_false]
      rw [searchO_pyStrip_none mcMatchAt (fun x e hx => mcMatchAt_ext e hx) _ hmc]
      rw [searchO_pyStrip_none dashMatchAt (fun x e hx => dashMatchAt_ext e hx) _ hdash]
      exact pyStrip_idem _

/-- Witness for the amended C2 at `"v1.0"`, whose normalization `"1.0"`
no longer starts with `v`. -/
theorem claim_C2_amended_witness :
    normalize_version (normalize_version "v1.0".toList) =
      normalize_version "v1.0".toList :=
  claim_C2_amended "v1.0".toList (by decide)
